import Mathlib

/-!
Verification of the open.mp C API single-header generator
(`tools/generate_single_header.js`, and the sibling JSON api-doc emitter).

Strings are modelled as `List Char` (`JSStr`), and the JavaScript string
primitives used by the generator (`split`, `trim`, `indexOf`, `substring`,
first-occurrence `replace`, `Array.prototype.join`) are given executable
models with JavaScript semantics (clamping of out-of-range indices,
`-1` for a failed search, splitting on every occurrence of the separator).
-/

set_option maxRecDepth 8192

abbrev JSStr := List Char

/-- Whitespace as removed by JS `String.prototype.trim` (the characters
that actually occur in the scanned sources). -/
def isJsSpace (c : Char) : Bool :=
  c == ' ' || c == '\t' || c == '\n' || c == '\r'

/-- JS `s.trim()`. -/
def jsTrim (s : JSStr) : JSStr :=
  ((s.dropWhile isJsSpace).reverse.dropWhile isJsSpace).reverse

/-- Fuelled worker for JS `s.split(sep)`: scan left to right, cutting at every
occurrence of `sep`; fuel is the length of the scanned string. -/
def jsSplitGo (sep : JSStr) : Nat → JSStr → JSStr → List JSStr
  | _, [], acc => [acc.reverse]
  | 0, s, acc => [acc.reverse ++ s]
  | fuel+1, c :: rest, acc =>
    if sep.isPrefixOf (c :: rest) then
      acc.reverse :: jsSplitGo sep fuel (rest.drop (sep.length - 1)) []
    else
      jsSplitGo sep fuel rest (c :: acc)

/-- JS `s.split(sep)` for a non-empty separator string. -/
def jsSplit (sep s : JSStr) : List JSStr :=
  jsSplitGo sep s.length s []

/-- JS `Array.prototype.join(sep)`. -/
def joinSep (sep : JSStr) : List JSStr → JSStr
  | [] => []
  | [x] => x
  | x :: y :: rest => x ++ sep ++ joinSep sep (y :: rest)

/-- Position of the first occurrence of `sub` in the scanned string
(`none` when there is no occurrence). -/
def firstOccAux (sub : JSStr) : JSStr → Option Nat
  | [] => if sub.isEmpty then some 0 else none
  | c :: rest =>
    if sub.isPrefixOf (c :: rest) then some 0
    else (firstOccAux sub rest).map (· + 1)

/-- JS `s.indexOf(sub, start)`: a negative start is clamped to 0, a start past
the end is clamped to the length, and a failed search yields `-1`. -/
def jsIndexOfFrom (s sub : JSStr) (start : Int) : Int :=
  let st := min start.toNat s.length
  match firstOccAux sub (s.drop st) with
  | some i => ((st + i : Nat) : Int)
  | none => -1

/-- JS `s.indexOf(sub)`. -/
def jsIndexOf (s sub : JSStr) : Int := jsIndexOfFrom s sub 0

/-- JS `s.substring(a, b)`: both indices are clamped into `[0, s.length]`
and swapped when given in the wrong order. -/
def jsSubstring (s : JSStr) (a b : Int) : JSStr :=
  let a' := min a.toNat s.length
  let b' := min b.toNat s.length
  (s.take (max a' b')).drop (min a' b')

/-- JS `s.replace(pat, "")` for a plain string pattern: remove the first
occurrence of `pat`, if any. -/
def jsReplaceFirst (pat s : JSStr) : JSStr :=
  match firstOccAux pat s with
  | some i => s.take i ++ s.drop (i + pat.length)
  | none => s

/-- A parsed parameter, as built by both scripts: `{ name, type }`. -/
structure Parameter where
  name : JSStr
  type : JSStr
deriving DecidableEq

/-- A parsed function record, as built by both scripts:
`{ ret, name, params }`. -/
structure APIFunc where
  ret : JSStr
  name : JSStr
  params : List Parameter
deriving DecidableEq

/-- The header generator's per-line result: `{ group, api }`. -/
structure APIEntry where
  group : JSStr
  api : APIFunc
deriving DecidableEq

/-- The JSON emitter's per-line result: `{ component, api }`. -/
structure DocAPIEntry where
  component : JSStr
  api : APIFunc
deriving DecidableEq

/-- One event of the event schema: `{ name, args }`. -/
structure EventRecord where
  name : JSStr
  args : List Parameter
deriving DecidableEq

namespace Gen

def API_PREFIX : JSStr := "OMP_CAPI(".data

/-- `TYPE_MAPPINGS.function[type] || type` of the header generator, as a
string-keyed lookup over the six fixed entries. -/
def convertFunctionArgType (type : JSStr) : JSStr :=
  if type = "StringCharPtr".data then "const char*".data
  else if type = "objectPtr".data then "void*".data
  else if type = "voidPtr".data then "void*".data
  else if type = "OutputStringViewPtr".data then "struct CAPIStringView*".data
  else if type = "OutputStringBufferPtr".data then "struct CAPIStringBuffer*".data
  else if type = "ComponentVersion".data then "struct ComponentVersion".data
  else type

/-- `TYPE_MAPPINGS.event[type] || type` of the header generator. -/
def convertEventArgType (type : JSStr) : JSStr :=
  if type = "CAPIStringView".data then "struct CAPIStringView".data
  else type

/-- `parseParameter` of the header generator: trim, split on every space,
drop the token when fewer than two fields result, otherwise take the first
field as the (normalized) type and the second field as the name. -/
def parseParameter (paramString : JSStr) : Option Parameter :=
  match jsSplit " ".data (jsTrim paramString) with
  | p0 :: p1 :: _ => some { name := p1, type := convertFunctionArgType p0 }
  | _ => none

/-- `parseAPILine` of the header generator.  `none` models the `TypeError`
thrown when the split yields no second component (`rest` undefined). -/
def parseAPILine (line : JSStr) : Option APIEntry :=
  let content := jsReplaceFirst API_PREFIX line
  match jsSplit ", ".data content with
  | fullName :: rest :: _ =>
    let nameParts := jsSplit "_".data fullName
    let group := nameParts.headD []
    let name := joinSep "_".data nameParts.tail
    let returnTypeEnd := jsIndexOf rest "(".data
    let returnType := jsSubstring rest 0 returnTypeEnd
    let paramsStart := jsIndexOfFrom content "(".data (jsIndexOf content returnType) + 1
    let paramsEnd := jsIndexOf content ")".data
    let paramsString := jsSubstring content paramsStart paramsEnd
    let parameters := (jsSplit ", ".data paramsString).filterMap parseParameter
    some ⟨group, ⟨convertFunctionArgType returnType, name, parameters⟩⟩
  | _ => none

/-- The per-file loop of `processFile`: keep the lines starting with the API
prefix and parse each of them; `none` models the exception aborting the run. -/
def processFile (lines : List JSStr) : Option (List APIEntry) :=
  (lines.filter (fun l => API_PREFIX.isPrefixOf l)).mapM parseAPILine

/-- One `apisByGroup[group].push(api)` step of `collectAPIs`: a JS object is
modelled as an association list whose keys stay in insertion order; the
matching entry gets `api` appended, a missing key is inserted at the end. -/
def pushToGroup : List (JSStr × List APIFunc) → JSStr → APIFunc → List (JSStr × List APIFunc)
  | [], g, a => [(g, [a])]
  | (k, l) :: rest, g, a =>
    if k = g then (k, l ++ [a]) :: rest else (k, l) :: pushToGroup rest g a

/-- The accumulation loop of `collectAPIs` over the parsed entries of all
files, concatenated in file processing order. -/
def collectFromEntries (entries : List APIEntry) : List (JSStr × List APIFunc) :=
  entries.foldl (fun m e => pushToGroup m e.group e.api) []

/-- `collectAPIs` over the selected files' line lists, in the scanner's
stable order. -/
def collectAPIs (files : List (List JSStr)) : Option (List (JSStr × List APIFunc)) :=
  (files.mapM processFile).map (fun ls => collectFromEntries ls.flatten)

/-- The records stored under one group of the grouped model. -/
def groupOf (m : List (JSStr × List APIFunc)) (g : JSStr) : List APIFunc :=
  match m.find? (fun p => p.1 == g) with
  | some p => p.2
  | none => []

/-- The parameter-list text of one typedef emitted by
`writeFunctionTypeDefinitions`: the `type name` pairs joined with `, `. -/
def renderParams (params : List Parameter) : JSStr :=
  joinSep ", ".data (params.map (fun param => param.type ++ " ".data ++ param.name))

/-- One `typedef` line of `writeFunctionTypeDefinitions`. -/
def typedefLine (group : JSStr) (func : APIFunc) : JSStr :=
  "typedef ".data ++ func.ret ++ " (*".data ++ group ++ "_".data ++ func.name
    ++ "_t)(".data ++ renderParams func.params ++ ");\n".data

/-- One field line of the per-event argument record emitted by
`writeEventDefinitions`: eight spaces, the normalized type, a star, a
space, the argument name and a semicolon. -/
def eventArgFieldLine (param : Parameter) : JSStr :=
  "        ".data ++ convertEventArgType param.type ++ "* ".data ++ param.name ++ ";".data

/-- The C type of the field declared by `eventArgFieldLine`: the normalized
argument type followed by a star. -/
def eventFieldType (param : Parameter) : JSStr :=
  convertEventArgType param.type ++ "*".data

/-- The declarator name of the field declared by `eventArgFieldLine`. -/
def eventFieldName (param : Parameter) : JSStr := param.name

/-- The full text block emitted by `writeEventDefinitions` for one event:
the `EventArgs_<name>` record and the `EventCallback_<name>` alias. -/
def eventBlock (event : EventRecord) : JSStr :=
  "\nstruct EventArgs_".data ++ event.name
    ++ " \x7b\n    int size;\n    struct \x7b\n".data
    ++ joinSep "\n".data (event.args.map eventArgFieldLine)
    ++ "\n    \x7d *list;\n\x7d;\ntypedef bool (*EventCallback_".data ++ event.name
    ++ ")(struct EventArgs_".data ++ event.name ++ " args);\n".data

/-- One symbol-assignment line emitted by `writeInitializationFunction`: the
dispatch-table field `group.name` is assigned the address of the exported
symbol named exactly `group_name`, with no error check. -/
def assignLine (group : JSStr) (func : APIFunc) : JSStr :=
  "    ompapi->".data ++ group ++ ".".data ++ func.name ++ " = (".data
    ++ group ++ "_".data ++ func.name ++ "_t)LIBRARY_GET_ADDR(capi_lib, \"".data
    ++ group ++ "_".data ++ func.name ++ "\");\n".data

/-- The fixed leading template of `writeInitializationFunction`: library
open, open-failure check, sentinel resolution and sentinel check. -/
def initHeaderText : JSStr :=
  ("\nstatic bool omp_initialize_capi(struct OMPAPI_t* ompapi) \x7b\n"
    ++ "#if defined(WIN32) || defined(_WIN32) || defined(__WIN32__)\n"
    ++ "    void* capi_lib = LIBRARY_OPEN(\"./components/$CAPI.dll\");\n"
    ++ "#else\n"
    ++ "    void* capi_lib = LIBRARY_OPEN(\"./components/$CAPI.so\");\n"
    ++ "#endif\n\n"
    ++ "    // Check if library was loaded successfully\n"
    ++ "    if (!capi_lib)\n    \x7b\n        return false;\n    \x7d\n\n"
    ++ "    // Verify one of the core C apis is available\n"
    ++ "    ompapi->Core.TickCount = (Core_TickCount_t)LIBRARY_GET_ADDR(capi_lib, \"Core_TickCount\");\n\n"
    ++ "    if (!ompapi->Core.TickCount)\n    \x7b\n        return false;\n    \x7d\n").data

/-- The per-group text block of `writeInitializationFunction`. -/
def groupRetrieveBlock (group : JSStr) (funcs : List APIFunc) : JSStr :=
  "\n    // Retrieve ".data ++ group ++ " functions\n".data
    ++ (funcs.map (assignLine group)).flatten

/-- The fixed trailing text of `writeInitializationFunction`. -/
def initFooterText : JSStr := "\n    return true;\n\x7d;\n".data

/-- The whole text written by `writeInitializationFunction`. -/
def emitInitializationFunction (apis : List (JSStr × List APIFunc)) : JSStr :=
  initHeaderText ++ (apis.map (fun p => groupRetrieveBlock p.1 p.2)).flatten ++ initFooterText

/-- Execution model of the straight-line C function whose text
`emitInitializationFunction` produces: `libOpened` tells whether
`LIBRARY_OPEN` succeeded and `getAddr` is `LIBRARY_GET_ADDR` on the opened
library (`none` for an unresolved symbol).  The result is the returned
`bool` together with the dispatch-table field assignments
`((group, name), value)` performed, in program order. -/
def initSem (apis : List (JSStr × List APIFunc)) (libOpened : Bool)
    (getAddr : JSStr → Option Nat) : Bool × List ((JSStr × JSStr) × Option Nat) :=
  if !libOpened then (false, [])
  else
    let sentinel := getAddr "Core_TickCount".data
    let table := [(("Core".data, "TickCount".data), sentinel)]
    match sentinel with
    | none => (false, table)
    | some _ =>
      (true, apis.foldl (fun t p =>
        p.2.foldl (fun t func =>
          t ++ [((p.1, func.name), getAddr (p.1 ++ "_".data ++ func.name))]) t) table)

end Gen

namespace Docs

def API_PREFIX : JSStr := "OMP_CAPI(".data

/-- `TYPE_MAPPINGS[type] || type` of the JSON emitter: the smaller, flat
mapping table. -/
def convertTypeName (type : JSStr) : JSStr :=
  if type = "StringCharPtr".data then "const char*".data
  else if type = "objectPtr".data then "void*".data
  else if type = "voidPtr".data then "void*".data
  else if type = "OutputStringViewPtr".data then "CAPIStringView*".data
  else if type = "OutputStringBufferPtr".data then "CAPIStringBuffer*".data
  else type

/-- `parseParameter` of the JSON emitter (identical to the header
generator's up to the type table). -/
def parseParameter (paramString : JSStr) : Option Parameter :=
  match jsSplit " ".data (jsTrim paramString) with
  | p0 :: p1 :: _ => some { name := p1, type := convertTypeName p0 }
  | _ => none

/-- `parseAPILine` of the JSON emitter: the component is the first
underscore segment and the emitted `name` keeps the full `apiName`. -/
def parseAPILine (line : JSStr) : Option DocAPIEntry :=
  let content := jsReplaceFirst API_PREFIX line
  match jsSplit ", ".data content with
  | apiName :: rest :: _ =>
    let componentName := (jsSplit "_".data apiName).headD []
    let returnTypeEnd := jsIndexOf rest "(".data
    let returnType := jsSubstring rest 0 returnTypeEnd
    let paramsStart := jsIndexOfFrom content "(".data (jsIndexOf content returnType) + 1
    let paramsEnd := jsIndexOf content ")".data
    let paramsString := jsSubstring content paramsStart paramsEnd
    let parameters := (jsSplit ", ".data paramsString).filterMap parseParameter
    some ⟨componentName, ⟨convertTypeName returnType, apiName, parameters⟩⟩
  | _ => none

end Docs

/-- A token free of the delimiter characters of the API-line grammar. -/
def plainToken (t : JSStr) : Prop := ',' ∉ t ∧ '(' ∉ t ∧ ')' ∉ t

/-- A single word: non-empty and free of whitespace and delimiters — the
shape of a type or name field inside the parameter region. -/
def wordToken (t : JSStr) : Prop :=
  t ≠ [] ∧ (∀ c ∈ t, isJsSpace c = false) ∧ plainToken t

/-- The well-formed line of the grammar:
`OMP_CAPI(Group_Name, ReturnType(tok0, tok1, ...))` where `ps` lists the
raw parameter tokens. -/
def mkLine (G N R : JSStr) (ps : List JSStr) : JSStr :=
  Gen.API_PREFIX ++ G ++ "_".data ++ N ++ ", ".data ++ R ++ "(".data
    ++ joinSep ", ".data ps ++ "))".data

/-- Side conditions making `mkLine G N R ps` a grammar-well-formed line the
parser can decompose: the group carries no underscore and none of the
fragments contains a delimiter. -/
def lineOK (G N R : JSStr) (ps : List JSStr) : Prop :=
  plainToken G ∧ '_' ∉ G ∧ plainToken N ∧ plainToken R ∧ ∀ t ∈ ps, plainToken t

instance (t : JSStr) : Decidable (plainToken t) := by
  unfold plainToken
  infer_instance

instance (G N R : JSStr) (ps : List JSStr) : Decidable (lineOK G N R ps) := by
  unfold lineOK
  infer_instance

section SplitLemmas

theorem jsSplitGo_nil (sep : JSStr) (f : Nat) (acc : JSStr) :
    jsSplitGo sep f [] acc = [acc.reverse] := by
  cases f <;> rfl

theorem jsSplitGo_fuel (sep : JSStr) :
    ∀ f₁ f₂ s acc, s.length ≤ f₁ → s.length ≤ f₂ →
      jsSplitGo sep f₁ s acc = jsSplitGo sep f₂ s acc := by
  intro f₁
  induction f₁ with
  | zero =>
    intro f₂ s acc h₁ _
    have hs : s = [] := List.eq_nil_of_length_eq_zero (Nat.le_zero.mp h₁)
    subst hs
    rw [jsSplitGo_nil, jsSplitGo_nil]
  | succ f₁ ih =>
    intro f₂ s acc h₁ h₂
    cases s with
    | nil => rw [jsSplitGo_nil, jsSplitGo_nil]
    | cons c rest =>
      cases f₂ with
      | zero => simp at h₂
      | succ f₂ =>
        have hr₁ : rest.length ≤ f₁ := by simp [List.length_cons] at h₁; omega
        have hr₂ : rest.length ≤ f₂ := by simp [List.length_cons] at h₂; omega
        have hd : (rest.drop (sep.length - 1)).length ≤ rest.length := by
          rw [ List.length_drop]; exact Nat.sub_le _ _
        simp only [jsSplitGo]
        split
        · rw [ih f₂ _ _ (le_trans hd hr₁) (le_trans hd hr₂)]
        · rw [ih f₂ _ _ hr₁ hr₂]

theorem jsSplitGo_skip (s0 : Char) (srest : JSStr) :
    ∀ (a : JSStr) (f : Nat) (b acc : JSStr), s0 ∉ a →
      jsSplitGo (s0 :: srest) (a.length + f) (a ++ b) acc
        = jsSplitGo (s0 :: srest) f b (a.reverse ++ acc) := by
  intro a
  induction a with
  | nil => intro f b acc _; simp
  | cons c a ih =>
    intro f b acc h
    have hc : (s0 == c) = false := by
      simp only [beq_eq_false_iff_ne, ne_eq]
      intro e; exact h (by simp [e])
    have hnot : ¬ ((s0 :: srest).isPrefixOf (c :: (a ++ b)) = true) := by
      simp [List.isPrefixOf_cons₂, hc]
    have hlen : (c :: a).length + f = (a.length + f) + 1 := by
      simp [List.length_cons]; omega
    rw [hlen, show ((c :: a) ++ b) = c :: (a ++ b) from rfl]
    simp only [jsSplitGo]
    rw [if_neg hnot, ih f b (c :: acc) (fun hm => h (List.mem_cons_of_mem c hm))]
    simp [List.reverse_cons, List.append_assoc]

theorem jsSplitGo_hit (s0 : Char) (srest : JSStr) (f : Nat) (b acc : JSStr) :
    jsSplitGo (s0 :: srest) (f + 1) ((s0 :: srest) ++ b) acc
      = acc.reverse :: jsSplitGo (s0 :: srest) f b [] := by
  have hpre : (s0 :: srest).isPrefixOf (s0 :: (srest ++ b)) = true := by
    rw [ List.isPrefixOf_iff_prefix]
    exact ⟨b, rfl⟩
  show jsSplitGo (s0 :: srest) (f + 1) (s0 :: (srest ++ b)) acc = _
  simp only [jsSplitGo]
  rw [if_pos hpre]
  congr 1
  have : (s0 :: srest).length - 1 = srest.length := by simp
  rw [this, List.drop_left]

theorem jsSplitGo_all (s0 : Char) (srest a : JSStr) (f : Nat) (acc : JSStr)
    (h : s0 ∉ a) :
    jsSplitGo (s0 :: srest) (a.length + f) a acc = [acc.reverse ++ a] := by
  have hskip := jsSplitGo_skip s0 srest a f [] acc h
  rw [List.append_nil] at hskip
  rw [hskip, jsSplitGo_nil]
  simp

theorem jsSplitGo_ne_nil (sep : JSStr) :
    ∀ f s acc, jsSplitGo sep f s acc ≠ [] := by
  intro f
  induction f with
  | zero =>
    intro s acc
    cases s with
    | nil => simp [jsSplitGo_nil]
    | cons c rest => simp [jsSplitGo]
  | succ f ih =>
    intro s acc
    cases s with
    | nil => simp [jsSplitGo_nil]
    | cons c rest =>
      simp only [jsSplitGo]
      split
      · simp
      · exact ih _ _

theorem jsSplitGo_head (sep : JSStr) :
    ∀ f s acc, ∃ w t, jsSplitGo sep f s acc = (acc.reverse ++ w) :: t := by
  intro f
  induction f with
  | zero =>
    intro s acc
    cases s with
    | nil => exact ⟨[], [], by simp [jsSplitGo_nil]⟩
    | cons c rest => exact ⟨c :: rest, [], by simp [jsSplitGo]⟩
  | succ f ih =>
    intro s acc
    cases s with
    | nil => exact ⟨[], [], by simp [jsSplitGo_nil]⟩
    | cons c rest =>
      by_cases hp : sep.isPrefixOf (c :: rest) = true
      · refine ⟨[], jsSplitGo sep f (rest.drop (sep.length - 1)) [], ?_⟩
        simp only [jsSplitGo]
        rw [if_pos hp]
        simp
      · obtain ⟨w, t, hw⟩ := ih rest (c :: acc)
        exact ⟨c :: w, t, by
          simp only [jsSplitGo]
          rw [if_neg hp, hw]
          simp [List.reverse_cons, List.append_assoc]⟩

theorem jsSplit_append (s0 : Char) (srest a b : JSStr) (h : s0 ∉ a) :
    jsSplit (s0 :: srest) (a ++ (s0 :: srest) ++ b) = a :: jsSplit (s0 :: srest) b := by
  unfold jsSplit
  have hlen : (a ++ (s0 :: srest) ++ b).length = a.length + (srest.length + b.length + 1) := by
    simp [List.length_append, List.length_cons]
  rw [hlen, List.append_assoc,
    jsSplitGo_skip s0 srest a (srest.length + b.length + 1) ((s0 :: srest) ++ b) [] h,
    jsSplitGo_hit,
    jsSplitGo_fuel (s0 :: srest) (srest.length + b.length) b.length b [] (by omega) (le_refl _)]
  simp

theorem jsSplit_single (s0 : Char) (srest a : JSStr) (h : s0 ∉ a) :
    jsSplit (s0 :: srest) a = [a] := by
  unfold jsSplit
  simpa using jsSplitGo_all s0 srest a 0 [] h

theorem jsSplit_ne_nil (sep s : JSStr) : jsSplit sep s ≠ [] :=
  jsSplitGo_ne_nil sep s.length s []

theorem jsSplit_shape (s0 : Char) (srest a b : JSStr) (h : s0 ∉ a) :
    ∃ w t, jsSplit (s0 :: srest) (a ++ b) = (a ++ w) :: t := by
  unfold jsSplit
  rw [List.length_append, jsSplitGo_skip s0 srest a b.length b [] h]
  obtain ⟨w, t, hw⟩ := jsSplitGo_head (s0 :: srest) b.length b (a.reverse ++ [])
  exact ⟨w, t, by rw [hw]; simp⟩

theorem joinSep_cons (sep x : JSStr) (L : List JSStr) (h : L ≠ []) :
    joinSep sep (x :: L) = x ++ sep ++ joinSep sep L := by
  cases L with
  | nil => exact absurd rfl h
  | cons y t => rfl

theorem joinSep_jsSplitGo (s0 : Char) (srest : JSStr) :
    ∀ f s acc, s.length ≤ f →
      joinSep (s0 :: srest) (jsSplitGo (s0 :: srest) f s acc) = acc.reverse ++ s := by
  intro f
  induction f with
  | zero =>
    intro s acc h
    have hs : s = [] := List.eq_nil_of_length_eq_zero (Nat.le_zero.mp h)
    subst hs
    simp [jsSplitGo_nil, joinSep]
  | succ f ih =>
    intro s acc h
    cases s with
    | nil => simp [jsSplitGo_nil, joinSep]
    | cons c rest =>
      have hr : rest.length ≤ f := by simp [List.length_cons] at h; omega
      simp only [jsSplitGo]
      by_cases hp : (s0 :: srest).isPrefixOf (c :: rest) = true
      · rw [if_pos hp, joinSep_cons _ _ _ (jsSplitGo_ne_nil _ _ _ _)]
        have hd : (rest.drop ((s0 :: srest).length - 1)).length ≤ f :=
          le_trans (by rw [ List.length_drop]; exact Nat.sub_le _ _) hr
        rw [ih _ _ hd]
        obtain ⟨u, hu⟩ := List.isPrefixOf_iff_prefix.mp hp
        have hrest : srest ++ u = rest := by injection hu
        have hcu : c = s0 := by injection hu with h1 _; exact h1.symm
        have hrd : rest.drop ((s0 :: srest).length - 1) = u := by
          rw [← hrest]
          simp [List.drop_left]
        rw [hrd, hcu, ← hrest]
        simp [List.append_assoc]
      · rw [if_neg hp, ih _ _ hr]
        simp [List.reverse_cons, List.append_assoc]

theorem joinSep_jsSplit (s0 : Char) (srest s : JSStr) :
    joinSep (s0 :: srest) (jsSplit (s0 :: srest) s) = s := by
  unfold jsSplit
  simpa using joinSep_jsSplitGo s0 srest s.length s [] (le_refl _)

theorem jsSplitGo_two_le (c : Char) :
    ∀ f s acc, s.length ≤ f → c ∈ s → 2 ≤ (jsSplitGo [c] f s acc).length := by
  intro f
  induction f with
  | zero =>
    intro s acc h hm
    have hs : s = [] := List.eq_nil_of_length_eq_zero (Nat.le_zero.mp h)
    subst hs
    simp at hm
  | succ f ih =>
    intro s acc h hm
    cases s with
    | nil => simp at hm
    | cons c' rest =>
      have hr : rest.length ≤ f := by simp [List.length_cons] at h; omega
      simp only [jsSplitGo]
      by_cases hp : [c].isPrefixOf (c' :: rest) = true
      · rw [if_pos hp]
        simp only [List.length_singleton, Nat.sub_self, List.drop_zero]
        have hne := jsSplitGo_ne_nil [c] f rest []
        have hlen : 1 ≤ (jsSplitGo [c] f rest []).length := by
          cases hJ : jsSplitGo [c] f rest [] with
          | nil => exact absurd hJ hne
          | cons x xs => simp
        have hc : (acc.reverse :: jsSplitGo [c] f rest []).length
            = (jsSplitGo [c] f rest []).length + 1 := List.length_cons _ _
        rw [hc]
        omega
      · rw [if_neg hp]
        apply ih _ _ hr
        rcases List.mem_cons.mp hm with h1 | h1
        · exfalso
          apply hp
          rw [ List.isPrefixOf_iff_prefix, ← h1]
          exact ⟨rest, rfl⟩
        · exact h1

theorem jsSplit_two_le (c : Char) (s : JSStr) (hm : c ∈ s) :
    2 ≤ (jsSplit [c] s).length :=
  jsSplitGo_two_le c s.length s [] (le_refl _) hm

theorem jsSplitGo_headD (c : Char) :
    ∀ f s acc, s.length ≤ f →
      (jsSplitGo [c] f s acc).headD [] = acc.reverse ++ s.takeWhile (fun x => x != c) := by
  intro f
  induction f with
  | zero =>
    intro s acc h
    have hs : s = [] := List.eq_nil_of_length_eq_zero (Nat.le_zero.mp h)
    subst hs
    simp [jsSplitGo_nil]
  | succ f ih =>
    intro s acc h
    cases s with
    | nil => simp [jsSplitGo_nil]
    | cons c' rest =>
      have hr : rest.length ≤ f := by simp [List.length_cons] at h; omega
      simp only [jsSplitGo]
      by_cases hp : [c].isPrefixOf (c' :: rest) = true
      · rw [if_pos hp]
        have hcc : c' = c := by
          obtain ⟨u, hu⟩ := List.isPrefixOf_iff_prefix.mp hp
          injection hu with h1 _
          exact h1.symm
        subst hcc
        simp [List.takeWhile_cons]
      · rw [if_neg hp]
        have hcc : c' ≠ c := by
          intro e
          apply hp
          rw [ List.isPrefixOf_iff_prefix, ← e]
          exact ⟨rest, rfl⟩
        rw [ih _ _ hr]
        have hb : (c' != c) = true := by simp [bne_iff_ne, hcc]
        simp [List.takeWhile_cons, hb, List.reverse_cons, List.append_assoc]

theorem jsSplit_headD (c : Char) (s : JSStr) :
    (jsSplit [c] s).headD [] = s.takeWhile (fun x => x != c) := by
  unfold jsSplit
  simpa using jsSplitGo_headD c s.length s [] (le_refl _)

theorem jsSplit_joinSep (s0 : Char) (srest : JSStr) :
    ∀ ps : List JSStr, ps ≠ [] → (∀ t ∈ ps, s0 ∉ t) →
      jsSplit (s0 :: srest) (joinSep (s0 :: srest) ps) = ps := by
  intro ps
  induction ps with
  | nil => intro h _; exact absurd rfl h
  | cons x tail ih =>
    intro _ hmem
    cases tail with
    | nil =>
      show jsSplit (s0 :: srest) x = [x]
      exact jsSplit_single s0 srest x (hmem x (by simp))
    | cons y t =>
      rw [joinSep_cons _ _ _ (by simp),
        jsSplit_append s0 srest x (joinSep (s0 :: srest) (y :: t)) (hmem x (by simp)),
        ih (by simp) (fun u hu => hmem u (List.mem_cons_of_mem x hu))]

theorem not_mem_joinSep (c : Char) (sep : JSStr) (hc : c ∉ sep) :
    ∀ ps : List JSStr, (∀ t ∈ ps, c ∉ t) → c ∉ joinSep sep ps := by
  intro ps
  induction ps with
  | nil => intro _; simp [joinSep]
  | cons x tail ih =>
    intro hmem
    cases tail with
    | nil => exact hmem x (by simp)
    | cons y t =>
      rw [joinSep_cons _ _ _ (by simp)]
      intro hin
      rcases List.mem_append.mp hin with hin | hin
      · rcases List.mem_append.mp hin with hin | hin
        · exact hmem x (by simp) hin
        · exact hc hin
      · exact ih (fun u hu => hmem u (List.mem_cons_of_mem x hu)) hin

end SplitLemmas

section SearchLemmas

theorem firstOccAux_self (sub b : JSStr) : firstOccAux sub (sub ++ b) = some 0 := by
  cases sub with
  | nil =>
    cases b with
    | nil => rfl
    | cons c rest =>
      show firstOccAux [] (c :: rest) = some 0
      simp [firstOccAux]
  | cons s0 srest =>
    have hpre : (s0 :: srest).isPrefixOf (s0 :: (srest ++ b)) = true := by
      rw [ List.isPrefixOf_iff_prefix]
      exact ⟨b, rfl⟩
    show firstOccAux (s0 :: srest) (s0 :: (srest ++ b)) = some 0
    simp only [firstOccAux]
    rw [if_pos hpre]

theorem firstOccAux_char (c : Char) :
    ∀ (a b : JSStr), c ∉ a → firstOccAux [c] (a ++ c :: b) = some a.length := by
  intro a
  induction a with
  | nil =>
    intro b _
    show firstOccAux [c] (([c] : JSStr) ++ b) = some 0
    exact firstOccAux_self [c] b
  | cons c' a ih =>
    intro b h
    have hc : (c == c') = false := by
      simp only [beq_eq_false_iff_ne, ne_eq]
      intro e; exact h (by simp [e])
    have hnp : ¬ ([c].isPrefixOf (c' :: (a ++ c :: b)) = true) := by
      simp [List.isPrefixOf_cons₂, hc]
    show firstOccAux [c] (c' :: (a ++ c :: b)) = some ((c' :: a).length)
    simp only [firstOccAux]
    rw [if_neg hnp, ih b (fun hm => h (List.mem_cons_of_mem c' hm))]
    rfl

theorem firstOccAux_none (c : Char) :
    ∀ s : JSStr, c ∉ s → firstOccAux [c] s = none := by
  intro s
  induction s with
  | nil => intro _; rfl
  | cons c' rest ih =>
    intro h
    have hc : (c == c') = false := by
      simp only [beq_eq_false_iff_ne, ne_eq]
      intro e; exact h (by simp [e])
    have hnp : ¬ ([c].isPrefixOf (c' :: rest) = true) := by
      simp [List.isPrefixOf_cons₂, hc]
    simp only [firstOccAux]
    rw [if_neg hnp, ih (fun hm => h (List.mem_cons_of_mem c' hm))]
    rfl

theorem firstOccAux_bound (sub : JSStr) :
    ∀ (x y : JSStr), ∃ j, j ≤ x.length ∧ firstOccAux sub (x ++ sub ++ y) = some j := by
  intro x
  induction x with
  | nil =>
    intro y
    refine ⟨0, Nat.le_refl 0, ?_⟩
    show firstOccAux sub (sub ++ y) = some 0
    exact firstOccAux_self sub y
  | cons c x ih =>
    intro y
    show ∃ j, j ≤ (c :: x).length ∧ firstOccAux sub (c :: (x ++ sub ++ y)) = some j
    by_cases hp : sub.isPrefixOf (c :: (x ++ sub ++ y)) = true
    · refine ⟨0, Nat.zero_le _, ?_⟩
      simp only [firstOccAux]
      rw [if_pos hp]
    · obtain ⟨j, hj, hocc⟩ := ih y
      refine ⟨j + 1, by simp [List.length_cons]; omega, ?_⟩
      simp only [firstOccAux]
      rw [if_neg hp, hocc]
      rfl

theorem jsIndexOf_char (a b : JSStr) (c : Char) (ha : c ∉ a) :
    jsIndexOf (a ++ c :: b) [c] = (a.length : Int) := by
  unfold jsIndexOf jsIndexOfFrom
  simp [firstOccAux_char c a b ha]

theorem jsIndexOfFrom_char (a b : JSStr) (c : Char) (i : Int)
    (ha : c ∉ a) (hle : i.toNat ≤ a.length) :
    jsIndexOfFrom (a ++ c :: b) [c] i = (a.length : Int) := by
  simp only [jsIndexOfFrom]
  have hst : min i.toNat (a ++ c :: b).length = i.toNat := by
    simp [List.length_append, List.length_cons]
    omega
  rw [hst]
  have hdrop : (a ++ c :: b).drop i.toNat = a.drop i.toNat ++ c :: b := by
    rw [List.drop_append_eq_append_drop, Nat.sub_eq_zero_of_le hle, List.drop_zero]
  rw [hdrop, firstOccAux_char c _ b (fun hm => ha (List.mem_of_mem_drop hm))]
  show ((i.toNat + (a.drop i.toNat).length : Nat) : Int) = (a.length : Int)
  rw [ List.length_drop]
  omega

theorem jsIndexOf_bound (s sub x y : JSStr) (hs : s = x ++ sub ++ y) :
    ∃ j, j ≤ x.length ∧ jsIndexOf s sub = (j : Int) := by
  obtain ⟨j, hj, hocc⟩ := firstOccAux_bound sub x y
  refine ⟨j, hj, ?_⟩
  subst hs
  have hocc' : firstOccAux sub (x ++ (sub ++ y)) = some j := by
    rw [← List.append_assoc]
    exact hocc
  unfold jsIndexOf jsIndexOfFrom
  simp [hocc']

theorem jsSubstring_zero (s : JSStr) (n : Nat) (h : n ≤ s.length) :
    jsSubstring s 0 (n : Int) = s.take n := by
  simp only [jsSubstring]
  simp [Nat.min_eq_left h]

theorem jsSubstring_mid (x m y : JSStr) :
    jsSubstring (x ++ m ++ y) (x.length : Int) ((x.length + m.length : Nat) : Int) = m := by
  simp only [jsSubstring]
  have hlen : (x ++ m ++ y).length = x.length + m.length + y.length := by
    simp [List.length_append, Nat.add_assoc]
  have h1 : ((x.length : Int)).toNat = x.length := by omega
  have h2 : (((x.length + m.length : Nat) : Int)).toNat = x.length + m.length := by omega
  rw [h1, h2, hlen]
  have hmin1 : min x.length (x.length + m.length + y.length) = x.length := by omega
  have hmin2 : min (x.length + m.length) (x.length + m.length + y.length)
      = x.length + m.length := by omega
  rw [hmin1, hmin2]
  have hmax : max x.length (x.length + m.length) = x.length + m.length := by omega
  have hmin : min x.length (x.length + m.length) = x.length := by omega
  rw [hmax, hmin]
  have htake : (x ++ m ++ y).take (x.length + m.length) = x ++ m := by
    rw [show x.length + m.length = (x ++ m).length by simp]
    exact List.take_left (x ++ m) y
  rw [htake, List.drop_left]

theorem jsReplaceFirst_self (pat s : JSStr) :
    jsReplaceFirst pat (pat ++ s) = s := by
  unfold jsReplaceFirst
  rw [firstOccAux_self]
  simp [List.drop_left]

end SearchLemmas

section TrimLemmas

theorem dropWhile_eq_self_of_head (p : Char → Bool) (s : JSStr)
    (h : ∀ c, s.head? = some c → p c = false) : s.dropWhile p = s := by
  cases s with
  | nil => rfl
  | cons c rest =>
    have hc := h c rfl
    simp [List.dropWhile_cons, hc]

theorem getLast?_mem_self : ∀ (s : JSStr), s ≠ [] → ∃ c, s.getLast? = some c ∧ c ∈ s := by
  intro s
  induction s with
  | nil => intro h; exact absurd rfl h
  | cons c rest ih =>
    intro _
    cases rest with
    | nil => exact ⟨c, rfl, by simp⟩
    | cons y t =>
      obtain ⟨c', hc', hmem⟩ := ih (by simp)
      exact ⟨c', by rw [List.getLast?_cons_cons]; exact hc', List.mem_cons_of_mem c hmem⟩

theorem jsTrim_eq_self (s : JSStr)
    (hh : ∀ c, s.head? = some c → isJsSpace c = false)
    (hl : ∀ c, s.getLast? = some c → isJsSpace c = false) :
    jsTrim s = s := by
  unfold jsTrim
  rw [dropWhile_eq_self_of_head _ s hh]
  rw [dropWhile_eq_self_of_head _ s.reverse ?_]
  · exact List.reverse_reverse s
  · intro c hc
    apply hl
    rwa [← List.head?_reverse]

end TrimLemmas

section ParseLemmas

theorem comma_space_chars : (", ".data : JSStr) = [',', ' '] := rfl

theorem lparen_chars : ("(".data : JSStr) = ['('] := rfl

theorem rparen2_chars : ("))".data : JSStr) = [')', ')'] := rfl

theorem parseParameter_word_pair (t n : JSStr)
    (ht : t ≠ []) (htc : ∀ c ∈ t, isJsSpace c = false)
    (hn : n ≠ []) (hnc : ∀ c ∈ n, isJsSpace c = false) :
    Gen.parseParameter (t ++ " ".data ++ n) = some ⟨n, Gen.convertFunctionArgType t⟩ := by
  have hts : ' ' ∉ t := fun hm => absurd (htc ' ' hm) (by decide)
  have hns : ' ' ∉ n := fun hm => absurd (hnc ' ' hm) (by decide)
  have htrim : jsTrim (t ++ " ".data ++ n) = t ++ " ".data ++ n := by
    apply jsTrim_eq_self
    · intro c hc
      cases t with
      | nil => exact absurd rfl ht
      | cons x xs =>
        have hx : x = c := by simpa using hc
        subst hx
        exact htc x (by simp)
    · intro c hc
      obtain ⟨c', hc', hmem⟩ := getLast?_mem_self n hn
      have h2 : (t ++ " ".data ++ n).getLast? = some c' := by
        rw [List.append_assoc, List.getLast?_append, List.getLast?_append, hc']
        rfl
      have hee : some c' = some c := h2.symm.trans hc
      injection hee with hee
      subst hee
      exact hnc c' hmem
  unfold Gen.parseParameter
  rw [htrim]
  have hsplit : jsSplit " ".data (t ++ " ".data ++ n) = t :: [n] := by
    show jsSplit (' ' :: []) (t ++ (' ' :: []) ++ n) = t :: [n]
    rw [jsSplit_append ' ' [] t n hts, jsSplit_single ' ' [] n hns]
  rw [hsplit]

theorem parseParameter_short (t : JSStr)
    (h : (jsSplit " ".data (jsTrim t)).length < 2) :
    Gen.parseParameter t = none := by
  unfold Gen.parseParameter
  cases hs : jsSplit " ".data (jsTrim t) with
  | nil => rfl
  | cons p0 tail =>
    cases tail with
    | nil => rfl
    | cons p1 r =>
      rw [hs] at h
      simp [List.length_cons] at h
      omega

theorem parseParameter_isSome (t : JSStr)
    (h : 2 ≤ (jsSplit " ".data (jsTrim t)).length) :
    (Gen.parseParameter t).isSome = true := by
  unfold Gen.parseParameter
  cases hs : jsSplit " ".data (jsTrim t) with
  | nil => rw [hs] at h; simp at h
  | cons p0 tail =>
    cases tail with
    | nil => rw [hs] at h; simp at h
    | cons p1 r => rfl

theorem parseAPILine_mkLine (G N R : JSStr) (ps : List JSStr) (hok : lineOK G N R ps) :
    Gen.parseAPILine (mkLine G N R ps)
      = some ⟨G, ⟨Gen.convertFunctionArgType R, N, ps.filterMap Gen.parseParameter⟩⟩ := by
  obtain ⟨⟨hGc, hGl, hGr⟩, hGu, ⟨hNc, hNl, hNr⟩, ⟨hRc, hRl, hRr⟩, hps⟩ := hok
  have hFcomma : ',' ∉ G ++ "_".data ++ N := by
    intro hm
    rcases List.mem_append.mp hm with hm | hm
    · rcases List.mem_append.mp hm with hm | hm
      · exact hGc hm
      · exact absurd hm (by decide)
    · exact hNc hm
  have hFparen : '(' ∉ G ++ "_".data ++ N := by
    intro hm
    rcases List.mem_append.mp hm with hm | hm
    · rcases List.mem_append.mp hm with hm | hm
      · exact hGl hm
      · exact absurd hm (by decide)
    · exact hNl hm
  have hFrparen : ')' ∉ G ++ "_".data ++ N := by
    intro hm
    rcases List.mem_append.mp hm with hm | hm
    · rcases List.mem_append.mp hm with hm | hm
      · exact hGr hm
      · exact absurd hm (by decide)
    · exact hNr hm
  have hRpc : ',' ∉ R ++ "(".data := by
    intro hm
    rcases List.mem_append.mp hm with hm | hm
    · exact hRc hm
    · exact absurd hm (by decide)
  have hPr : ')' ∉ joinSep ", ".data ps :=
    not_mem_joinSep ')' ", ".data (by decide) ps (fun t ht => (hps t ht).2.2)
  have hline : mkLine G N R ps
      = Gen.API_PREFIX ++ (G ++ "_".data ++ N ++ ", ".data ++ R ++ "(".data
          ++ joinSep ", ".data ps ++ "))".data) := by
    unfold mkLine
    simp [List.append_assoc]
  have hcontent : jsReplaceFirst Gen.API_PREFIX (mkLine G N R ps)
      = G ++ "_".data ++ N ++ ", ".data ++ R ++ "(".data
          ++ joinSep ", ".data ps ++ "))".data := by
    rw [hline, jsReplaceFirst_self]
  have hTform : G ++ "_".data ++ N ++ ", ".data ++ R ++ "(".data
        ++ joinSep ", ".data ps ++ "))".data
      = (G ++ "_".data ++ N) ++ (',' :: [' '])
          ++ ((R ++ "(".data) ++ (joinSep ", ".data ps ++ "))".data)) := by
    simp [comma_space_chars, List.append_assoc]
  obtain ⟨w, tl, hshape⟩ := jsSplit_shape ',' [' '] (R ++ "(".data)
      (joinSep ", ".data ps ++ "))".data) hRpc
  have hfull : jsSplit ", ".data
        (G ++ "_".data ++ N ++ ", ".data ++ R ++ "(".data ++ joinSep ", ".data ps ++ "))".data)
      = (G ++ "_".data ++ N) :: ((R ++ "(".data) ++ w) :: tl := by
    show jsSplit (',' :: [' '])
        (G ++ "_".data ++ N ++ ", ".data ++ R ++ "(".data ++ joinSep ", ".data ps ++ "))".data)
      = _
    rw [hTform,
      jsSplit_append ',' [' '] (G ++ "_".data ++ N)
        ((R ++ "(".data) ++ (joinSep ", ".data ps ++ "))".data)) hFcomma,
      hshape]
  obtain ⟨j, hj, hIdx⟩ := jsIndexOf_bound
      (G ++ "_".data ++ N ++ ", ".data ++ R ++ "(".data ++ joinSep ", ".data ps ++ "))".data)
      R ((G ++ "_".data ++ N) ++ (',' :: [' ']))
      ("(".data ++ (joinSep ", ".data ps ++ "))".data))
      (by simp [comma_space_chars, List.append_assoc])
  have hTA : G ++ "_".data ++ N ++ ", ".data ++ R ++ "(".data
        ++ joinSep ", ".data ps ++ "))".data
      = ((G ++ "_".data ++ N) ++ (',' :: [' ']) ++ R)
          ++ '(' :: (joinSep ", ".data ps ++ "))".data) := by
    simp [comma_space_chars, lparen_chars, List.append_assoc]
  have hApar : '(' ∉ (G ++ "_".data ++ N) ++ (',' :: [' ']) ++ R := by
    intro hm
    rcases List.mem_append.mp hm with hm | hm
    · rcases List.mem_append.mp hm with hm | hm
      · exact hFparen hm
      · exact absurd hm (by decide)
    · exact hRl hm
  have hfrom : jsIndexOfFrom
        (G ++ "_".data ++ N ++ ", ".data ++ R ++ "(".data ++ joinSep ", ".data ps ++ "))".data)
        "(".data ((j : Nat) : Int)
      = ((((G ++ "_".data ++ N) ++ (',' :: [' ']) ++ R).length : Nat) : Int) := by
    rw [hTA]
    refine jsIndexOfFrom_char _ _ '(' _ hApar ?_
    have h1 : (((j : Nat) : Int)).toNat = j := by omega
    rw [h1]
    have h2 : ((G ++ "_".data ++ N) ++ (',' :: [' ']) ++ R).length
        = ((G ++ "_".data ++ N) ++ (',' :: [' '])).length + R.length := by
      simp [List.length_append]
      omega
    omega
  have hTB : G ++ "_".data ++ N ++ ", ".data ++ R ++ "(".data
        ++ joinSep ", ".data ps ++ "))".data
      = (((G ++ "_".data ++ N) ++ (',' :: [' ']) ++ R) ++ '(' :: joinSep ", ".data ps)
          ++ ')' :: [')'] := by
    simp [comma_space_chars, lparen_chars, rparen2_chars, List.append_assoc]
  have hBr : ')' ∉ ((G ++ "_".data ++ N) ++ (',' :: [' ']) ++ R) ++ '(' :: joinSep ", ".data ps := by
    intro hm
    rcases List.mem_append.mp hm with hm | hm
    · rcases List.mem_append.mp hm with hm | hm
      · rcases List.mem_append.mp hm with hm | hm
        · exact hFrparen hm
        · exact absurd hm (by decide)
      · exact hRr hm
    · rcases List.mem_cons.mp hm with hm | hm
      · exact absurd hm (by decide)
      · exact hPr hm
  have hend : jsIndexOf
        (G ++ "_".data ++ N ++ ", ".data ++ R ++ "(".data ++ joinSep ", ".data ps ++ "))".data)
        ")".data
      = (((((G ++ "_".data ++ N) ++ (',' :: [' ']) ++ R) ++ '(' :: joinSep ", ".data ps).length
          : Nat) : Int) := by
    rw [hTB]
    exact jsIndexOf_char _ _ ')' hBr
  have hsubstr : jsSubstring
        (G ++ "_".data ++ N ++ ", ".data ++ R ++ "(".data ++ joinSep ", ".data ps ++ "))".data)
        (((((G ++ "_".data ++ N) ++ (',' :: [' ']) ++ R).length : Nat) : Int) + 1)
        (((((G ++ "_".data ++ N) ++ (',' :: [' ']) ++ R) ++ '(' :: joinSep ", ".data ps).length
          : Nat) : Int)
      = joinSep ", ".data ps := by
    have h0 := jsSubstring_mid (((G ++ "_".data ++ N) ++ (',' :: [' ']) ++ R) ++ ['('])
        (joinSep ", ".data ps) [')', ')']
    have e1 : (((G ++ "_".data ++ N) ++ (',' :: [' ']) ++ R) ++ ['('])
          ++ joinSep ", ".data ps ++ [')', ')']
        = G ++ "_".data ++ N ++ ", ".data ++ R ++ "(".data
            ++ joinSep ", ".data ps ++ "))".data := by
      simp [comma_space_chars, lparen_chars, rparen2_chars, List.append_assoc]
    rw [e1] at h0
    have e2 : (((((G ++ "_".data ++ N) ++ (',' :: [' ']) ++ R) ++ ['('] : JSStr).length
          : Nat) : Int)
        = (((((G ++ "_".data ++ N) ++ (',' :: [' ']) ++ R).length : Nat) : Int) + 1) := by
      simp [List.length_append]
      omega
    have e3 : (((((G ++ "_".data ++ N) ++ (',' :: [' ']) ++ R) ++ ['('] : JSStr).length
            + (joinSep ", ".data ps).length : Nat) : Int)
        = (((((G ++ "_".data ++ N) ++ (',' :: [' ']) ++ R) ++ '(' :: joinSep ", ".data ps).length
            : Nat) : Int) := by
      congr 1
      simp [List.length_append, List.length_cons]
      omega
    rw [e2, e3] at h0
    exact h0
  have hRW : (R ++ "(".data) ++ w = R ++ '(' :: w := by
    simp [lparen_chars, List.append_assoc]
  have hretIdx : jsIndexOf ((R ++ "(".data) ++ w) "(".data = ((R.length : Nat) : Int) := by
    rw [hRW]
    exact jsIndexOf_char R w '(' hRl
  have hret : jsSubstring ((R ++ "(".data) ++ w) 0 (jsIndexOf ((R ++ "(".data) ++ w) "(".data)
      = R := by
    rw [hretIdx, hRW]
    have hle : R.length ≤ (R ++ '(' :: w).length := by
      simp [List.length_append]
    rw [jsSubstring_zero (R ++ '(' :: w) R.length hle]
    exact List.take_left R ('(' :: w)
  have hsplitF : jsSplit "_".data (G ++ "_".data ++ N) = G :: jsSplit ('_' :: ([] : JSStr)) N := by
    show jsSplit ('_' :: []) (G ++ ('_' :: []) ++ N) = _
    exact jsSplit_append '_' [] G N hGu
  have hgroup : (jsSplit "_".data (G ++ "_".data ++ N)).headD [] = G := by
    rw [hsplitF]
    rfl
  have hname : joinSep "_".data (jsSplit "_".data (G ++ "_".data ++ N)).tail = N := by
    rw [hsplitF]
    show joinSep ('_' :: []) (G :: jsSplit ('_' :: []) N).tail = N
    rw [List.tail_cons]
    exact joinSep_jsSplit '_' [] N
  have hparams : (jsSplit ", ".data (joinSep ", ".data ps)).filterMap Gen.parseParameter
      = ps.filterMap Gen.parseParameter := by
    cases ps with
    | nil => decide
    | cons p rest =>
      have h2 : jsSplit ", ".data (joinSep ", ".data (p :: rest)) = p :: rest := by
        show jsSplit (',' :: [' ']) (joinSep (',' :: [' ']) (p :: rest)) = p :: rest
        exact jsSplit_joinSep ',' [' '] (p :: rest) (by simp) (fun u hu => (hps u hu).1)
      rw [h2]
  simp only [Gen.parseAPILine]
  rw [hcontent]
  split
  next fullName rest tail heq =>
    rw [hfull] at heq
    injection heq with h1 heq'
    injection heq' with h2 _
    subst h1
    subst h2
    rw [hret, hIdx, hfrom, hend, hsubstr, hparams, hgroup, hname]
  next hne =>
    exact absurd hfull (hne _ _ _)

end ParseLemmas

section CollectLemmas

theorem groupOf_nil (g : JSStr) : Gen.groupOf [] g = [] := rfl

theorem groupOf_cons (k : JSStr) (l : List APIFunc) (rest : List (JSStr × List APIFunc))
    (g : JSStr) :
    Gen.groupOf ((k, l) :: rest) g = if k = g then l else Gen.groupOf rest g := by
  by_cases h : k = g
  · subst h
    simp [Gen.groupOf, List.find?]
  · have hb : (k == g) = false := by simp [h]
    simp [Gen.groupOf, List.find?, hb, h]

theorem groupOf_pushToGroup : ∀ (m : List (JSStr × List APIFunc)) (g' : JSStr) (a : APIFunc)
    (g : JSStr),
    Gen.groupOf (Gen.pushToGroup m g' a) g
      = if g = g' then Gen.groupOf m g ++ [a] else Gen.groupOf m g := by
  intro m
  induction m with
  | nil =>
    intro g' a g
    show Gen.groupOf [(g', [a])] g = _
    rw [groupOf_cons]
    by_cases h : g = g'
    · subst h
      simp [Gen.groupOf]
    · rw [if_neg (fun e => h e.symm), if_neg h]
  | cons kv rest ih =>
    intro g' a g
    obtain ⟨k, l⟩ := kv
    show Gen.groupOf (if k = g' then (k, l ++ [a]) :: rest else (k, l) :: Gen.pushToGroup rest g' a) g
      = _
    by_cases hk : k = g'
    · subst hk
      rw [if_pos rfl, groupOf_cons, groupOf_cons]
      by_cases hg : k = g
      · subst hg
        simp
      · have hg' : ¬ g = k := fun e => hg e.symm
        simp [hg, hg']
    · rw [if_neg hk, groupOf_cons, groupOf_cons, ih g' a g]
      by_cases hg : k = g
      · subst hg
        simp [hk]
      · simp [hg]

theorem groupOf_foldl (entries : List APIEntry) :
    ∀ (m : List (JSStr × List APIFunc)) (g : JSStr),
      Gen.groupOf (entries.foldl (fun m e => Gen.pushToGroup m e.group e.api) m) g
        = Gen.groupOf m g ++ (entries.filter (fun e => e.group == g)).map APIEntry.api := by
  induction entries with
  | nil =>
    intro m g
    simp
  | cons e es ih =>
    intro m g
    rw [List.foldl_cons, ih, groupOf_pushToGroup, List.filter_cons]
    by_cases h : g = e.group
    · have hb : (e.group == g) = true := by simp [h]
      simp [h, hb, List.append_assoc]
    · have hb : (e.group == g) = false := by simp [Ne.symm h]
      simp [h, hb]

end CollectLemmas

section IdemLemmas

theorem convertFunctionArgType_idem (t : JSStr) :
    Gen.convertFunctionArgType (Gen.convertFunctionArgType t) = Gen.convertFunctionArgType t := by
  by_cases h1 : t = "StringCharPtr".data
  · subst h1; decide
  by_cases h2 : t = "objectPtr".data
  · subst h2; decide
  by_cases h3 : t = "voidPtr".data
  · subst h3; decide
  by_cases h4 : t = "OutputStringViewPtr".data
  · subst h4; decide
  by_cases h5 : t = "OutputStringBufferPtr".data
  · subst h5; decide
  by_cases h6 : t = "ComponentVersion".data
  · subst h6; decide
  have ht : Gen.convertFunctionArgType t = t := by
    unfold Gen.convertFunctionArgType
    rw [if_neg h1, if_neg h2, if_neg h3, if_neg h4, if_neg h5, if_neg h6]
  rw [ht, ht]

theorem convertEventArgType_idem (t : JSStr) :
    Gen.convertEventArgType (Gen.convertEventArgType t) = Gen.convertEventArgType t := by
  by_cases h1 : t = "CAPIStringView".data
  · subst h1; decide
  have ht : Gen.convertEventArgType t = t := by
    unfold Gen.convertEventArgType
    rw [if_neg h1]
  rw [ht, ht]

theorem convertTypeName_idem (t : JSStr) :
    Docs.convertTypeName (Docs.convertTypeName t) = Docs.convertTypeName t := by
  by_cases h1 : t = "StringCharPtr".data
  · subst h1; decide
  by_cases h2 : t = "objectPtr".data
  · subst h2; decide
  by_cases h3 : t = "voidPtr".data
  · subst h3; decide
  by_cases h4 : t = "OutputStringViewPtr".data
  · subst h4; decide
  by_cases h5 : t = "OutputStringBufferPtr".data
  · subst h5; decide
  have ht : Docs.convertTypeName t = t := by
    unfold Docs.convertTypeName
    rw [if_neg h1, if_neg h2, if_neg h3, if_neg h4, if_neg h5]
  rw [ht, ht]

end IdemLemmas

section AgreeLemmas

theorem parseParameter_name_agree (t : JSStr) :
    (Docs.parseParameter t).map Parameter.name = (Gen.parseParameter t).map Parameter.name
    ∧ (Docs.parseParameter t).isSome = (Gen.parseParameter t).isSome := by
  unfold Gen.parseParameter Docs.parseParameter
  cases jsSplit " ".data (jsTrim t) with
  | nil => simp
  | cons p0 tail =>
    cases tail with
    | nil => simp
    | cons p1 r => simp

theorem filterMap_name_agree : ∀ (l : List JSStr),
    (l.filterMap Docs.parseParameter).map Parameter.name
      = (l.filterMap Gen.parseParameter).map Parameter.name := by
  intro l
  induction l with
  | nil => rfl
  | cons x xs ih =>
    obtain ⟨hname, hsome⟩ := parseParameter_name_agree x
    rw [List.filterMap_cons, List.filterMap_cons]
    cases hd : Docs.parseParameter x with
    | none =>
      have hg : Gen.parseParameter x = none := by
        cases hg2 : Gen.parseParameter x with
        | none => rfl
        | some p => rw [hd, hg2] at hsome; simp at hsome
      rw [hg]
      exact ih
    | some pd =>
      obtain ⟨pg, hg, hnm⟩ : ∃ pg, Gen.parseParameter x = some pg ∧ pg.name = pd.name := by
        cases hg2 : Gen.parseParameter x with
        | none => rw [hd, hg2] at hsome; simp at hsome
        | some pg =>
          refine ⟨pg, rfl, ?_⟩
          rw [hd, hg2] at hname
          simpa using hname.symm
      rw [hg]
      simp [hnm, ih]

theorem split_join_underscore (f : JSStr) (h : '_' ∈ f) :
    (jsSplit "_".data f).headD [] ++ "_".data ++ joinSep "_".data (jsSplit "_".data f).tail
      = f := by
  have h2 : 2 ≤ (jsSplit "_".data f).length := jsSplit_two_le '_' f h
  have hjoin : joinSep "_".data (jsSplit "_".data f) = f := joinSep_jsSplit '_' [] f
  cases hsp : jsSplit "_".data f with
  | nil => exact absurd hsp (jsSplit_ne_nil _ _)
  | cons g tail0 =>
    cases tail0 with
    | nil =>
      rw [hsp] at h2
      simp at h2
    | cons y t2 =>
      rw [hsp] at hjoin
      simp only [List.headD_cons, List.tail_cons]
      rw [← hjoin]
      rfl

end AgreeLemmas

section InitLemmas

theorem foldl_snoc_map {α β : Type} (f : α → β) :
    ∀ (l : List α) (t : List β), l.foldl (fun t x => t ++ [f x]) t = t ++ l.map f := by
  intro l
  induction l with
  | nil => intro t; simp
  | cons x xs ih =>
    intro t
    rw [List.foldl_cons, ih]
    simp [List.append_assoc]

theorem initSem_fold (getAddr : JSStr → Option Nat) :
    ∀ (apis : List (JSStr × List APIFunc)) (t : List ((JSStr × JSStr) × Option Nat)),
      apis.foldl (fun t p => p.2.foldl (fun t func =>
          t ++ [((p.1, func.name), getAddr (p.1 ++ "_".data ++ func.name))]) t) t
        = t ++ (apis.map (fun p => p.2.map (fun func =>
            ((p.1, func.name), getAddr (p.1 ++ "_".data ++ func.name))))).flatten := by
  intro apis
  induction apis with
  | nil => intro t; simp
  | cons p rest ih =>
    intro t
    rw [List.foldl_cons,
      foldl_snoc_map (fun func => ((p.1, func.name), getAddr (p.1 ++ "_".data ++ func.name)))
        p.2 t,
      ih]
    simp [List.append_assoc]

theorem infix_of_mem_flatten {x : JSStr} {L : List JSStr} (h : x ∈ L) : x <:+: L.flatten := by
  induction L with
  | nil => simp at h
  | cons y ys ih =>
    rcases List.mem_cons.mp h with h | h
    · subst h
      exact ⟨[], ys.flatten, by simp⟩
    · obtain ⟨s, t, hst⟩ := ih h
      exact ⟨y ++ s, t, by
        show y ++ s ++ x ++ t = y ++ ys.flatten
        rw [← hst]
        simp [List.append_assoc]⟩

theorem infix_extend {l m : JSStr} (x y : JSStr) (h : l <:+: m) : l <:+: x ++ m ++ y := by
  obtain ⟨s, t, hst⟩ := h
  exact ⟨x ++ s, t ++ y, by rw [← hst]; simp [List.append_assoc]⟩

end InitLemmas

section ParamHelpers

theorem filterMap_eq_map_of_forall {α β : Type} (f : α → Option β) (g : α → β) :
    ∀ l : List α, (∀ x ∈ l, f x = some (g x)) → l.filterMap f = l.map g := by
  intro l
  induction l with
  | nil => intro _; rfl
  | cons x xs ih =>
    intro h
    rw [List.filterMap_cons, h x (by simp), List.map_cons,
      ih (fun y hy => h y (List.mem_cons_of_mem x hy))]

theorem infix_append_left {l m : JSStr} (x : JSStr) (h : l <:+: m) : l <:+: x ++ m := by
  obtain ⟨s, t, hst⟩ := h
  exact ⟨x ++ s, t, by rw [← hst]; simp [List.append_assoc]⟩

end ParamHelpers

section Claims

/-- C1 counterexample: two files whose single lines yield the same
`(group, name)` key `(Actor, Create)` produce a grouped model whose
`Actor` list keeps BOTH records, so the model does not retain exactly one
record for the duplicated key. -/
theorem c1_counterexample :
    Gen.collectAPIs [["OMP_CAPI(Actor_Create, void(int a))".data],
        ["OMP_CAPI(Actor_Create, int())".data]]
      = some [("Actor".data,
          [⟨"void".data, "Create".data, [⟨"a".data, "int".data⟩]⟩,
           ⟨"int".data, "Create".data, []⟩])]
    ∧ ¬ (Gen.groupOf [("Actor".data,
          [⟨"void".data, "Create".data, [⟨"a".data, "int".data⟩]⟩,
           ⟨"int".data, "Create".data, []⟩])] "Actor".data).length = 1 := by
  refine ⟨by decide, by decide⟩

/-- C1 (amended): insertion into the grouped model appends: for every
entry stream and every group, the group's list equals the sequence of all
of that group's records in processing order, so records with a duplicated
`(group, name)` key are both retained — the later one appended after the
earlier — and no replacement happens. -/
theorem c1_insertion_appends (entries : List APIEntry) (g : JSStr) :
    Gen.groupOf (Gen.collectFromEntries entries) g
      = (entries.filter (fun e => e.group == g)).map APIEntry.api := by
  unfold Gen.collectFromEntries
  rw [groupOf_foldl entries [] g]
  rfl

/-- C2: parsing the single input line
`OMP_CAPI(Actor_Create, objectPtr(int modelid, float x, float y, float z, float rotation, int* id))`
yields exactly the record with group `Actor`, name `Create`, normalized
return type `void*` and the six ordered parameters. -/
theorem c2_actor_create_scenario :
    Gen.parseAPILine "OMP_CAPI(Actor_Create, objectPtr(int modelid, float x, float y, float z, float rotation, int* id))".data
      = some ⟨"Actor".data,
          ⟨"void*".data, "Create".data,
            [⟨"modelid".data, "int".data⟩, ⟨"x".data, "float".data⟩,
             ⟨"y".data, "float".data⟩, ⟨"z".data, "float".data⟩,
             ⟨"rotation".data, "float".data⟩, ⟨"id".data, "int*".data⟩]⟩⟩ := by
  decide

/-- C4 counterexample: the grammar-well-formed line
`OMP_CAPI(Actor_Spawn, void(objectPtr p))` parses to a record whose
re-rendered parameter list is `void* p`, not the original `objectPtr p`:
round-tripping does not return the original type token when the type is in
the normalization table. -/
theorem c4_counterexample :
    lineOK "Actor".data "Spawn".data "void".data ["objectPtr p".data]
    ∧ Gen.parseAPILine (mkLine "Actor".data "Spawn".data "void".data ["objectPtr p".data])
        = some ⟨"Actor".data, ⟨"void".data, "Spawn".data, [⟨"p".data, "void*".data⟩]⟩⟩
    ∧ Gen.renderParams [⟨"p".data, "void*".data⟩] ≠ joinSep ", ".data ["objectPtr p".data] := by
  refine ⟨by decide, by decide, by decide⟩

/-- C4 (amended): for every grammar-well-formed line, parsing then
re-rendering the parameter list (as in the typedef emission) yields the
original parameter names with the types passed through the normalization
table; when every type token on the line is unmapped by the table, the
original `type name` pairs are recovered exactly. -/
theorem c4_roundtrip_normalized (G N R : JSStr) (pts : List (JSStr × JSStr))
    (hok : lineOK G N R (pts.map (fun p => p.1 ++ " ".data ++ p.2)))
    (hw : ∀ p ∈ pts, (p.1 ≠ [] ∧ ∀ c ∈ p.1, isJsSpace c = false)
        ∧ (p.2 ≠ [] ∧ ∀ c ∈ p.2, isJsSpace c = false)) :
    Gen.parseAPILine (mkLine G N R (pts.map (fun p => p.1 ++ " ".data ++ p.2)))
      = some ⟨G, ⟨Gen.convertFunctionArgType R, N,
          pts.map (fun p => ⟨p.2, Gen.convertFunctionArgType p.1⟩)⟩⟩
    ∧ Gen.renderParams (pts.map (fun p => ⟨p.2, Gen.convertFunctionArgType p.1⟩))
        = joinSep ", ".data (pts.map (fun p => Gen.convertFunctionArgType p.1 ++ " ".data ++ p.2))
    ∧ ((∀ p ∈ pts, Gen.convertFunctionArgType p.1 = p.1) →
        Gen.renderParams (pts.map (fun p => ⟨p.2, Gen.convertFunctionArgType p.1⟩))
          = joinSep ", ".data (pts.map (fun p => p.1 ++ " ".data ++ p.2))) := by
  have hfm : (pts.map (fun p => p.1 ++ " ".data ++ p.2)).filterMap Gen.parseParameter
      = pts.map (fun p => (⟨p.2, Gen.convertFunctionArgType p.1⟩ : Parameter)) := by
    rw [List.filterMap_map]
    apply filterMap_eq_map_of_forall
    intro p hp
    exact parseParameter_word_pair p.1 p.2 (hw p hp).1.1 (hw p hp).1.2
      (hw p hp).2.1 (hw p hp).2.2
  have hrender : Gen.renderParams (pts.map (fun p => ⟨p.2, Gen.convertFunctionArgType p.1⟩))
      = joinSep ", ".data (pts.map (fun p => Gen.convertFunctionArgType p.1 ++ " ".data ++ p.2)) := by
    unfold Gen.renderParams
    rw [List.map_map]
    rfl
  refine ⟨?_, hrender, fun hfix => ?_⟩
  · rw [parseAPILine_mkLine G N R _ hok, hfm]
  · rw [hrender]
    congr 1
    exact List.map_congr_left (fun p hp => by rw [hfix p hp])

/-- C4 witness at a concrete line mixing an unmapped type (`int`) and a
mapped type (`objectPtr`). -/
theorem c4_witness :
    Gen.parseAPILine (mkLine "Actor".data "Create".data "void".data
        (([("int".data, "a".data), ("objectPtr".data, "p".data)] : List (JSStr × JSStr)).map
          (fun p => p.1 ++ " ".data ++ p.2)))
      = some ⟨"Actor".data, ⟨Gen.convertFunctionArgType "void".data, "Create".data,
          ([("int".data, "a".data), ("objectPtr".data, "p".data)] : List (JSStr × JSStr)).map
            (fun p => ⟨p.2, Gen.convertFunctionArgType p.1⟩)⟩⟩
    ∧ Gen.renderParams (([("int".data, "a".data), ("objectPtr".data, "p".data)] : List (JSStr × JSStr)).map
          (fun p => ⟨p.2, Gen.convertFunctionArgType p.1⟩))
        = joinSep ", ".data (([("int".data, "a".data), ("objectPtr".data, "p".data)] : List (JSStr × JSStr)).map
          (fun p => Gen.convertFunctionArgType p.1 ++ " ".data ++ p.2)) := by
  have h := c4_roundtrip_normalized "Actor".data "Create".data "void".data
      [("int".data, "a".data), ("objectPtr".data, "p".data)] (by decide) (by decide)
  exact ⟨h.1, h.2.1⟩

/-- C5 counterexample: on the parameter token `int* id extra`, which
contains two spaces, the parser produces the name `id` — the second
space-separated field — not the entire remainder `id extra` after the
first space. -/
theorem c5_counterexample :
    Gen.parseParameter "int* id extra".data = some ⟨"id".data, "int*".data⟩
    ∧ ("id".data : JSStr) ≠ "id extra".data := by
  refine ⟨by decide, by decide⟩

/-- C5 (amended): for every parameter token whose trimmed form contains a
space, the type is the text before the first space (normalized) and the
name is the field between the first space and the following space (or the
end); any later fields are discarded. -/
theorem c5_first_two_fields (t w1 r : JSStr) (hw : ' ' ∉ w1)
    (hsplit : jsTrim t = w1 ++ ' ' :: r) :
    Gen.parseParameter t
      = some ⟨r.takeWhile (fun c => c != ' '), Gen.convertFunctionArgType w1⟩ := by
  unfold Gen.parseParameter
  rw [hsplit]
  have hsp : jsSplit " ".data (w1 ++ ' ' :: r) = w1 :: jsSplit (' ' :: ([] : JSStr)) r := by
    have h := jsSplit_append ' ' [] w1 r hw
    rw [List.append_assoc] at h
    exact h
  rw [hsp]
  obtain ⟨x, xs, hx⟩ : ∃ x xs, jsSplit (' ' :: ([] : JSStr)) r = x :: xs := by
    cases hJ : jsSplit (' ' :: ([] : JSStr)) r with
    | nil => exact absurd hJ (jsSplit_ne_nil _ _)
    | cons x xs => exact ⟨x, xs, rfl⟩
  rw [hx]
  have hhead : x = r.takeWhile (fun c => c != ' ') := by
    have h := jsSplit_headD ' ' r
    rw [hx] at h
    simpa using h
  rw [hhead]

/-- C5 witness at the token `int* id extra`. -/
theorem c5_witness :
    Gen.parseParameter "int* id extra".data
      = some ⟨("id extra".data : JSStr).takeWhile (fun c => c != ' '),
          Gen.convertFunctionArgType "int*".data⟩ :=
  c5_first_two_fields "int* id extra".data "int*".data "id extra".data (by decide) (by decide)

/-- C6 counterexample: the second emitted field for the `OnPlayerConnect`
schema entry is named `ip`, but its type is `struct CAPIStringView*` — a
pointer to the normalized string-view record — not the record type
`struct CAPIStringView` itself. -/
theorem c6_counterexample :
    Gen.eventFieldName ⟨"ip".data, "CAPIStringView".data⟩ = "ip".data
    ∧ Gen.eventFieldType ⟨"ip".data, "CAPIStringView".data⟩ = "struct CAPIStringView*".data
    ∧ Gen.eventFieldType ⟨"ip".data, "CAPIStringView".data⟩ ≠ "struct CAPIStringView".data := by
  refine ⟨by decide, by decide, by decide⟩

/-- C6 (amended): for the `OnPlayerConnect` schema entry the emitted
argument record's second field is named `ip` and has type pointer to the
normalized string-view record (`struct CAPIStringView*`); the emitted
block is exactly the expected text, including the callback alias
`EventCallback_OnPlayerConnect` taking `struct EventArgs_OnPlayerConnect`
by value; and every emitted field line is eight spaces, the field type, a
space, the field name and a semicolon. -/
theorem c6_event_scenario :
    ((⟨"OnPlayerConnect".data,
        [⟨"playerid".data, "int".data⟩, ⟨"ip".data, "CAPIStringView".data⟩]⟩ : EventRecord).args.map
        (fun p => (Gen.eventFieldType p, Gen.eventFieldName p)))
      = [("int*".data, "playerid".data), ("struct CAPIStringView*".data, "ip".data)]
    ∧ Gen.eventBlock ⟨"OnPlayerConnect".data,
        [⟨"playerid".data, "int".data⟩, ⟨"ip".data, "CAPIStringView".data⟩]⟩
      = ("\nstruct EventArgs_OnPlayerConnect \x7b\n    int size;\n    struct \x7b\n"
          ++ "        int* playerid;\n        struct CAPIStringView* ip;\n"
          ++ "    \x7d *list;\n\x7d;\n"
          ++ "typedef bool (*EventCallback_OnPlayerConnect)(struct EventArgs_OnPlayerConnect args);\n").data
    ∧ ∀ p : Parameter, Gen.eventArgFieldLine p
        = "        ".data ++ Gen.eventFieldType p ++ " ".data ++ Gen.eventFieldName p ++ ";".data := by
  refine ⟨by decide, by decide, ?_⟩
  intro p
  unfold Gen.eventArgFieldLine Gen.eventFieldType Gen.eventFieldName
  rw [show ("* ".data : JSStr) = "*".data ++ " ".data from rfl]
  simp [List.append_assoc]

/-- C7: on a grammar-well-formed line, a parameter token with fewer than
two space-separated fields is dropped without aborting: the record is
still produced with its group, name and normalized return type, the kept
parameters are exactly the tokens accepted by the parameter parser in
their original order, and a token is dropped precisely when its trimmed
split has fewer than two fields. -/
theorem c7_malformed_parameter_recovery (G N R : JSStr) (ps : List JSStr)
    (hok : lineOK G N R ps) :
    Gen.parseAPILine (mkLine G N R ps)
      = some ⟨G, ⟨Gen.convertFunctionArgType R, N, ps.filterMap Gen.parseParameter⟩⟩
    ∧ (∀ t, (jsSplit " ".data (jsTrim t)).length < 2 → Gen.parseParameter t = none)
    ∧ (∀ t, 2 ≤ (jsSplit " ".data (jsTrim t)).length → (Gen.parseParameter t).isSome = true) :=
  ⟨parseAPILine_mkLine G N R ps hok, parseParameter_short, parseParameter_isSome⟩

/-- C7 witness: the token `banana` (one word) is dropped, the surrounding
well-formed parameters survive in order, and the record is produced. -/
theorem c7_witness :
    Gen.parseAPILine (mkLine "Actor".data "Create".data "void".data
        ["int a".data, "banana".data, "float b".data])
      = some ⟨"Actor".data, ⟨"void".data, "Create".data,
          [⟨"a".data, "int".data⟩, ⟨"b".data, "float".data⟩]⟩⟩ := by
  have h := c7_malformed_parameter_recovery "Actor".data "Create".data "void".data
      ["int a".data, "banana".data, "float b".data] (by decide)
  rw [h.1]
  decide

/-- C8: each of the three type-normalization tables — the header
generator's function table, its event table, and the JSON emitter's table
— is idempotent on every type token. -/
theorem c8_normalization_idempotent (t : JSStr) :
    Gen.convertFunctionArgType (Gen.convertFunctionArgType t) = Gen.convertFunctionArgType t
    ∧ Gen.convertEventArgType (Gen.convertEventArgType t) = Gen.convertEventArgType t
    ∧ Docs.convertTypeName (Docs.convertTypeName t) = Docs.convertTypeName t :=
  ⟨convertFunctionArgType_idem t, convertEventArgType_idem t, convertTypeName_idem t⟩

/-- C10: a grammar-well-formed line whose parameter region is empty parses
without error to a record with an empty parameter list: splitting the
empty region yields one empty token, which the parameter parser drops
rather than failing. -/
theorem c10_empty_param_region (G N R : JSStr) (hok : lineOK G N R []) :
    Gen.parseAPILine (mkLine G N R [])
      = some ⟨G, ⟨Gen.convertFunctionArgType R, N, []⟩⟩
    ∧ jsSplit ", ".data [] = [[]]
    ∧ Gen.parseParameter [] = none := by
  refine ⟨?_, by decide, by decide⟩
  have h := parseAPILine_mkLine G N R [] hok
  simpa using h

/-- C10 witness at the zero-parameter line `OMP_CAPI(Actor_Count, int())`. -/
theorem c10_witness :
    Gen.parseAPILine (mkLine "Actor".data "Count".data "int".data [])
      = some ⟨"Actor".data, ⟨Gen.convertFunctionArgType "int".data, "Count".data, []⟩⟩ :=
  (c10_empty_param_region "Actor".data "Count".data "int".data (by decide)).1

theorem genParse_inv (line : JSStr) {a : APIEntry} (ha : Gen.parseAPILine line = some a) :
    ∃ fullName rest tail,
      jsSplit ", ".data (jsReplaceFirst Gen.API_PREFIX line) = fullName :: rest :: tail
      ∧ a = ⟨(jsSplit "_".data fullName).headD [],
          ⟨Gen.convertFunctionArgType (jsSubstring rest 0 (jsIndexOf rest "(".data)),
           joinSep "_".data (jsSplit "_".data fullName).tail,
           (jsSplit ", ".data (jsSubstring (jsReplaceFirst Gen.API_PREFIX line)
               (jsIndexOfFrom (jsReplaceFirst Gen.API_PREFIX line) "(".data
                 (jsIndexOf (jsReplaceFirst Gen.API_PREFIX line)
                   (jsSubstring rest 0 (jsIndexOf rest "(".data))) + 1)
               (jsIndexOf (jsReplaceFirst Gen.API_PREFIX line) ")".data))).filterMap
             Gen.parseParameter⟩⟩ := by
  simp only [Gen.parseAPILine] at ha
  split at ha
  next fullName rest tail heq =>
    exact ⟨fullName, rest, tail, heq, (Option.some.inj ha).symm⟩
  next hne => exact absurd ha (by simp)

theorem docsParse_inv (line : JSStr) {b : DocAPIEntry} (hb : Docs.parseAPILine line = some b) :
    ∃ apiName rest tail,
      jsSplit ", ".data (jsReplaceFirst Gen.API_PREFIX line) = apiName :: rest :: tail
      ∧ b = ⟨(jsSplit "_".data apiName).headD [],
          ⟨Docs.convertTypeName (jsSubstring rest 0 (jsIndexOf rest "(".data)),
           apiName,
           (jsSplit ", ".data (jsSubstring (jsReplaceFirst Gen.API_PREFIX line)
               (jsIndexOfFrom (jsReplaceFirst Gen.API_PREFIX line) "(".data
                 (jsIndexOf (jsReplaceFirst Gen.API_PREFIX line)
                   (jsSubstring rest 0 (jsIndexOf rest "(".data))) + 1)
               (jsIndexOf (jsReplaceFirst Gen.API_PREFIX line) ")".data))).filterMap
             Docs.parseParameter⟩⟩ := by
  simp only [Docs.parseAPILine] at hb
  rw [show Docs.API_PREFIX = Gen.API_PREFIX from rfl] at hb
  split at hb
  next apiName rest tail heq =>
    exact ⟨apiName, rest, tail, heq, (Option.some.inj hb).symm⟩
  next hne => exact absurd hb (by simp)

/-- C9: on every line the header generator's parser and the JSON emitter's
parser succeed or fail together; when both succeed they produce the same
number of parameters with identical names in the same order, and whenever
the full name contains an underscore the JSON emitter's flat name equals
the header parser's group, an underscore, and its name. -/
theorem c9_parsers_agree (line : JSStr) :
    (Gen.parseAPILine line).isSome = (Docs.parseAPILine line).isSome
    ∧ ∀ a b, Gen.parseAPILine line = some a → Docs.parseAPILine line = some b →
        a.api.params.length = b.api.params.length
        ∧ a.api.params.map Parameter.name = b.api.params.map Parameter.name
        ∧ ('_' ∈ b.api.name → b.api.name = a.group ++ "_".data ++ a.api.name) := by
  constructor
  · simp only [Gen.parseAPILine, Docs.parseAPILine]
    rw [show Docs.API_PREFIX = Gen.API_PREFIX from rfl]
    cases hS : jsSplit ", ".data (jsReplaceFirst Gen.API_PREFIX line) with
    | nil => rfl
    | cons f t =>
      cases t with
      | nil => rfl
      | cons r tt => rfl
  · intro a b ha hb
    obtain ⟨fG, rG, tG, heqG, haG⟩ := genParse_inv line ha
    obtain ⟨fD, rD, tD, heqD, hbD⟩ := docsParse_inv line hb
    have hcons : fG :: rG :: tG = fD :: rD :: tD := heqG.symm.trans heqD
    injection hcons with hf hcons
    injection hcons with hr _
    subst hf
    subst hr
    subst haG
    subst hbD
    dsimp only
    generalize jsSplit ", ".data (jsSubstring (jsReplaceFirst Gen.API_PREFIX line)
        (jsIndexOfFrom (jsReplaceFirst Gen.API_PREFIX line) "(".data
          (jsIndexOf (jsReplaceFirst Gen.API_PREFIX line)
            (jsSubstring rG 0 (jsIndexOf rG "(".data))) + 1)
        (jsIndexOf (jsReplaceFirst Gen.API_PREFIX line) ")".data)) = PSL
    refine ⟨?_, (filterMap_name_agree PSL).symm, fun hu => (split_join_underscore fG hu).symm⟩
    have hlen := congrArg List.length ((filterMap_name_agree PSL).symm)
    rw [List.length_map, List.length_map] at hlen
    exact hlen

/-- C9 witness at the line `OMP_CAPI(Actor_Create, objectPtr(int modelid, int* id))`
on which both parsers succeed. -/
theorem c9_witness :
    ((⟨"Actor".data, ⟨"void*".data, "Create".data,
        [⟨"modelid".data, "int".data⟩, ⟨"id".data, "int*".data⟩]⟩⟩ : APIEntry).api.params.length
      = (⟨"Actor".data, ⟨"void*".data, "Actor_Create".data,
        [⟨"modelid".data, "int".data⟩, ⟨"id".data, "int*".data⟩]⟩⟩ : DocAPIEntry).api.params.length)
    ∧ ((⟨"Actor".data, ⟨"void*".data, "Create".data,
        [⟨"modelid".data, "int".data⟩, ⟨"id".data, "int*".data⟩]⟩⟩ : APIEntry).api.params.map
          Parameter.name
      = (⟨"Actor".data, ⟨"void*".data, "Actor_Create".data,
        [⟨"modelid".data, "int".data⟩, ⟨"id".data, "int*".data⟩]⟩⟩ : DocAPIEntry).api.params.map
          Parameter.name)
    ∧ (⟨"Actor".data, ⟨"void*".data, "Actor_Create".data,
        [⟨"modelid".data, "int".data⟩, ⟨"id".data, "int*".data⟩]⟩⟩ : DocAPIEntry).api.name
      = (⟨"Actor".data, ⟨"void*".data, "Create".data,
        [⟨"modelid".data, "int".data⟩, ⟨"id".data, "int*".data⟩]⟩⟩ : APIEntry).group
          ++ "_".data
          ++ (⟨"Actor".data, ⟨"void*".data, "Create".data,
        [⟨"modelid".data, "int".data⟩, ⟨"id".data, "int*".data⟩]⟩⟩ : APIEntry).api.name := by
  have h := (c9_parsers_agree "OMP_CAPI(Actor_Create, objectPtr(int modelid, int* id))".data).2
      ⟨"Actor".data, ⟨"void*".data, "Create".data,
        [⟨"modelid".data, "int".data⟩, ⟨"id".data, "int*".data⟩]⟩⟩
      ⟨"Actor".data, ⟨"void*".data, "Actor_Create".data,
        [⟨"modelid".data, "int".data⟩, ⟨"id".data, "int*".data⟩]⟩⟩
      (by decide) (by decide)
  exact ⟨h.1, h.2.1, h.2.2 (by decide)⟩

/-- C3: the generated initializer — `Gen.initSem` is the execution of the
straight-line C text produced by `Gen.emitInitializationFunction` against
a library (`libOpened` is the open result, `getAddr` the symbol lookup).
It returns false when the open fails; it resolves the sentinel
`Core_TickCount` before any other symbol and returns false when that is
null; otherwise it assigns, for every group and record in grouped order,
the lookup of the exact string `group_name` into field `group.name` with
no per-symbol check (an absent symbol leaves the field null) and returns
true.  The emitted text contains the exact assignment line for every
record, and the sentinel assignment is part of the fixed leading text. -/
theorem c3_initializer (apis : List (JSStr × List APIFunc)) (getAddr : JSStr → Option Nat) :
    Gen.initSem apis false getAddr = (false, [])
    ∧ (getAddr "Core_TickCount".data = none →
        Gen.initSem apis true getAddr = (false, [(("Core".data, "TickCount".data), none)]))
    ∧ (∀ p, getAddr "Core_TickCount".data = some p →
        (Gen.initSem apis true getAddr).1 = true
        ∧ (Gen.initSem apis true getAddr).2
            = (("Core".data, "TickCount".data), some p)
                :: (apis.map (fun q => q.2.map (fun func =>
                    ((q.1, func.name), getAddr (q.1 ++ "_".data ++ func.name))))).flatten
        ∧ ∀ g fs, (g, fs) ∈ apis → ∀ f ∈ fs,
            ((g, f.name), getAddr (g ++ "_".data ++ f.name)) ∈ (Gen.initSem apis true getAddr).2)
    ∧ (∀ g fs, (g, fs) ∈ apis → ∀ f ∈ fs,
        Gen.assignLine g f <:+: Gen.emitInitializationFunction apis)
    ∧ ("    ompapi->Core.TickCount = (Core_TickCount_t)LIBRARY_GET_ADDR(capi_lib, \"Core_TickCount\");\n".data
        <:+: Gen.emitInitializationFunction apis) := by
  refine ⟨rfl, ?_, ?_, ?_, ?_⟩
  · intro h
    simp [Gen.initSem, h]
  · intro p hp
    have htab : Gen.initSem apis true getAddr
        = (true, (("Core".data, "TickCount".data), some p)
            :: (apis.map (fun q => q.2.map (fun func =>
                ((q.1, func.name), getAddr (q.1 ++ "_".data ++ func.name))))).flatten) := by
      simp only [Gen.initSem, hp, Bool.not_true, Bool.false_eq_true, if_false]
      rw [initSem_fold]
      simp
    refine ⟨by rw [htab], by rw [htab], ?_⟩
    intro g fs hmem f hf
    rw [htab]
    apply List.mem_cons_of_mem
    rw [List.mem_flatten]
    refine ⟨fs.map (fun func => ((g, func.name), getAddr (g ++ "_".data ++ func.name))), ?_, ?_⟩
    · exact List.mem_map_of_mem _ hmem
    · exact List.mem_map_of_mem _ hf
  · intro g fs hmem f hf
    have h1 : Gen.assignLine g f <:+: (fs.map (Gen.assignLine g)).flatten :=
      infix_of_mem_flatten (List.mem_map_of_mem _ hf)
    have h2 : Gen.assignLine g f <:+: Gen.groupRetrieveBlock g fs := by
      unfold Gen.groupRetrieveBlock
      exact infix_append_left _ h1
    have h3 : Gen.groupRetrieveBlock g fs ∈ apis.map (fun q => Gen.groupRetrieveBlock q.1 q.2) :=
      List.mem_map_of_mem _ hmem
    have h4 : Gen.assignLine g f <:+: (apis.map (fun q => Gen.groupRetrieveBlock q.1 q.2)).flatten :=
      h2.trans (infix_of_mem_flatten h3)
    unfold Gen.emitInitializationFunction
    exact infix_extend _ _ h4
  · have hdecomp : Gen.initHeaderText
        = ("\nstatic bool omp_initialize_capi(struct OMPAPI_t* ompapi) \x7b\n"
            ++ "#if defined(WIN32) || defined(_WIN32) || defined(__WIN32__)\n"
            ++ "    void* capi_lib = LIBRARY_OPEN(\"./components/$CAPI.dll\");\n"
            ++ "#else\n"
            ++ "    void* capi_lib = LIBRARY_OPEN(\"./components/$CAPI.so\");\n"
            ++ "#endif\n\n"
            ++ "    // Check if library was loaded successfully\n"
            ++ "    if (!capi_lib)\n    \x7b\n        return false;\n    \x7d\n\n"
            ++ "    // Verify one of the core C apis is available\n").data
          ++ "    ompapi->Core.TickCount = (Core_TickCount_t)LIBRARY_GET_ADDR(capi_lib, \"Core_TickCount\");\n".data
          ++ "\n    if (!ompapi->Core.TickCount)\n    \x7b\n        return false;\n    \x7d\n".data := by
      decide
    refine ⟨("\nstatic bool omp_initialize_capi(struct OMPAPI_t* ompapi) \x7b\n"
        ++ "#if defined(WIN32) || defined(_WIN32) || defined(__WIN32__)\n"
        ++ "    void* capi_lib = LIBRARY_OPEN(\"./components/$CAPI.dll\");\n"
        ++ "#else\n"
        ++ "    void* capi_lib = LIBRARY_OPEN(\"./components/$CAPI.so\");\n"
        ++ "#endif\n\n"
        ++ "    // Check if library was loaded successfully\n"
        ++ "    if (!capi_lib)\n    \x7b\n        return false;\n    \x7d\n\n"
        ++ "    // Verify one of the core C apis is available\n").data,
      "\n    if (!ompapi->Core.TickCount)\n    \x7b\n        return false;\n    \x7d\n".data
        ++ (apis.map (fun q => Gen.groupRetrieveBlock q.1 q.2)).flatten
        ++ Gen.initFooterText, ?_⟩
    unfold Gen.emitInitializationFunction
    rw [hdecomp]
    simp [List.append_assoc]

/-- C3 witness: a one-group model against a library that resolves only the
sentinel: the initializer succeeds, and the Actor.Create field is assigned
the (null) lookup result of the exact symbol string. -/
theorem c3_witness :
    (Gen.initSem [("Actor".data, [⟨"void*".data, "Create".data, []⟩])] true
        (fun s => if s = "Core_TickCount".data then some 1 else none)).1 = true
    ∧ ((("Actor".data, "Create".data),
          (fun (s : JSStr) => if s = "Core_TickCount".data then some 1 else none)
            ("Actor".data ++ "_".data ++ "Create".data))
        ∈ (Gen.initSem [("Actor".data, [⟨"void*".data, "Create".data, []⟩])] true
            (fun s => if s = "Core_TickCount".data then some 1 else none)).2) := by
  have h := (c3_initializer [("Actor".data, [⟨"void*".data, "Create".data, []⟩])]
      (fun s => if s = "Core_TickCount".data then some 1 else none)).2.2.1 1 (by decide)
  exact ⟨h.1, h.2.2 "Actor".data [⟨"void*".data, "Create".data, []⟩] (by decide)
      ⟨"void*".data, "Create".data, []⟩ (by decide)⟩

end Claims

